import Mathlib

/-!
Verification of the ComplianceTool repository's core components against its
specification.  The Python sources are shallowly embedded into Lean:

* `src/storage/vector_store.py` — `VectorRecord`, `VectorStore._init_index`,
  `VectorStore._load_metadata`, `VectorStore.add`, `VectorStore.search`
  (NumPy fallback backend; similarity scores are modelled as exact rationals).
* `src/services/audit_pack.py` — evidence deduplication, `_apply_redactions_text`,
  `_write_manifest`, `_zip_pack`, the chain-of-custody finalization sequence and
  the input-validation check of `build_audit_pack`.
* `src/utils/embeddings.py` — `deterministic_embedding`.

SHA-256 digests and the hash-seeded random generator are kept abstract: the
theorems quantify over an arbitrary digest function / generator, which is
sound because none of the verified properties depend on particular digest
values.
-/

namespace ComplianceTool

/-- Mirrors the dataclass `VectorRecord` of `src/storage/vector_store.py`
(lines 15–24): sequential id, owning document id, filename, page number,
line range, content hash and fragment text. -/
structure VectorRecord where
  id : Nat
  doc_id : String
  filename : String
  page_number : Nat
  line_start : Nat
  line_end : Nat
  text_hash : String
  text : String
deriving DecidableEq, Repr

/-- Dot product of two vectors, `np.dot` on equal-length rows
(`src/storage/vector_store.py` line 138).  Scores are exact rationals; the
source computes in float32, modelled here by exact arithmetic. -/
def dot (v w : List ℚ) : ℚ :=
  (List.zipWith (· * ·) v w).sum

/-- The similarity row `sims = np.dot(self.embeddings, query_embedding)`
(`src/storage/vector_store.py` line 138): one dot product per stored row. -/
def simsOf (embeddings : List (List ℚ)) (q : List ℚ) : List ℚ :=
  embeddings.map (fun e => dot e q)

/-- Contract of `np.argsort(-sims)` (`src/storage/vector_store.py` line 139):
`perm` is a permutation of all row indices along which the scores are
non-increasing.  NumPy's default sort kind (`quicksort`) is *not* stable, so
nothing beyond this contract is guaranteed for equal scores; the embedding
therefore quantifies over every permutation satisfying it. -/
def IsArgsortDesc (s : List ℚ) (perm : List Nat) : Prop :=
  perm.Perm (List.range s.length) ∧
    (perm.map (fun i => s.getD i 0)).Sorted (· ≥ ·)

instance (s : List ℚ) (perm : List Nat) : Decidable (IsArgsortDesc s perm) := by
  unfold IsArgsortDesc
  infer_instance

/-- `top_indices = np.argsort(-sims)[:top_k]`
(`src/storage/vector_store.py` line 139). -/
def fallbackTopIndices (perm : List Nat) (top_k : Nat) : List Nat :=
  perm.take top_k

/-- `scores = sims[top_indices]` (`src/storage/vector_store.py` line 140). -/
def fallbackScores (s : List ℚ) (perm : List Nat) (top_k : Nat) : List ℚ :=
  (perm.take top_k).map (fun i => s.getD i 0)

/-- The result-collection loop of `VectorStore.search`
(`src/storage/vector_store.py` lines 143–148): walk `zip(scores, indices)`
and keep `(float(score), self.metadata[idx])` only when
`0 <= idx < len(self.metadata)`; any other index (e.g. the `-1` padding FAISS
returns) is skipped.  Indices are `Int` to cover the negative case. -/
def collectResults (metadata : List VectorRecord) :
    List ℚ → List Int → List (ℚ × VectorRecord)
  | s :: ss, i :: is =>
    if h : 0 ≤ i ∧ i.toNat < metadata.length then
      (s, metadata.get ⟨i.toNat, h.2⟩) :: collectResults metadata ss is
    else
      collectResults metadata ss is
  | _, _ => []

/-- `VectorStore.search` on the NumPy fallback backend
(`src/storage/vector_store.py` lines 126–148): empty index returns `[]`;
otherwise scores/indices come from the argsort permutation `perm` (a parameter
because `np.argsort`'s tie behaviour is unspecified) and pass through the
bounds-checking collection loop. -/
def VectorStore.search (metadata : List VectorRecord)
    (embeddings : List (List ℚ)) (q : List ℚ) (top_k : Nat)
    (perm : List Nat) : List (ℚ × VectorRecord) :=
  if embeddings.length = 0 then []
  else
    collectResults metadata (fallbackScores (simsOf embeddings q) perm top_k)
      ((fallbackTopIndices perm top_k).map Int.ofNat)

/-- Results with equal scores appear in ascending record-id order (the tie
rule claimed by the spec for `search`). -/
def TiesAscend (rs : List (ℚ × VectorRecord)) : Prop :=
  rs.Pairwise (fun a b => a.1 = b.1 → a.2.id < b.2.id)

instance (rs : List (ℚ × VectorRecord)) : Decidable (TiesAscend rs) := by
  unfold TiesAscend
  infer_instance

/-- A concrete record used to instantiate theorems on small inputs. -/
def sampleRecord (n : Nat) : VectorRecord :=
  { id := n, doc_id := "d", filename := "f", page_number := 1,
    line_start := n, line_end := n, text_hash := "h", text := "t" }

/-- The scores of the pairs kept by the collection loop form a sublist of the
backend's score list: the loop only ever skips entries. -/
theorem collectResults_fst_sublist (m : List VectorRecord) :
    ∀ (s : List ℚ) (i : List Int),
      ((collectResults m s i).map Prod.fst).Sublist s
  | [], i => by cases i <;> simp [collectResults]
  | a :: ss, [] => by simp [collectResults]
  | a :: ss, b :: is => by
    by_cases h : 0 ≤ b ∧ b.toNat < m.length
    · simpa [collectResults, h] using (collectResults_fst_sublist m ss is).cons₂ a
    · simpa [collectResults, h] using (collectResults_fst_sublist m ss is).cons a

/-- The collection loop returns at most as many pairs as it was given scores. -/
theorem collectResults_length_le (m : List VectorRecord) (s : List ℚ)
    (i : List Int) : (collectResults m s i).length ≤ s.length := by
  simpa using (collectResults_fst_sublist m s i).length_le

/-- Every pair kept by the collection loop carries a metadata record at an
in-bounds position. -/
theorem collectResults_mem (m : List VectorRecord) :
    ∀ (s : List ℚ) (i : List Int) (r : ℚ × VectorRecord),
      r ∈ collectResults m s i →
      ∃ j, ∃ hj : j < m.length, r.2 = m.get ⟨j, hj⟩
  | [], i, r => by cases i <;> simp [collectResults]
  | a :: ss, [], r => by simp [collectResults]
  | a :: ss, b :: is, r => by
    by_cases h : 0 ≤ b ∧ b.toNat < m.length
    · simp only [collectResults, dif_pos h, List.mem_cons]
      rintro (rfl | hr)
      · exact ⟨b.toNat, h.2, rfl⟩
      · exact collectResults_mem m ss is r hr
    · simp only [collectResults, dif_neg h]
      exact collectResults_mem m ss is r

/-- Two identical unit rows scored against the same query produce equal
scores, and reversing the two indices is still a valid (unstable) argsort. -/
theorem argsortExample : IsArgsortDesc (simsOf [[1], [1]] [(1 : ℚ)]) [1, 0] := by
  have hsims : simsOf [[1], [1]] [(1 : ℚ)] = [1, 1] := by
    norm_num [simsOf, dot]
  rw [hsims]
  exact ⟨by decide, by decide⟩

/-- C2 (counterexample): the claim as stated — search results sorted, at most
`topK`, and ties in ascending record-id order — is false: `np.argsort`'s
default sort is unstable, so a valid argsort permutation may order two
equal-score rows by descending index, and the claimed tie rule fails. -/
theorem search_tie_counterexample :
    ¬ (∀ (metadata : List VectorRecord) (embeddings : List (List ℚ))
        (q : List ℚ) (k : Nat) (perm : List Nat),
        IsArgsortDesc (simsOf embeddings q) perm →
        (VectorStore.search metadata embeddings q k perm).length ≤ k ∧
          ((VectorStore.search metadata embeddings q k perm).map
              Prod.fst).Sorted (· ≥ ·) ∧
          TiesAscend (VectorStore.search metadata embeddings q k perm)) := by
  intro h
  have hres : VectorStore.search [sampleRecord 0, sampleRecord 1]
      [[1], [1]] [1] 2 [1, 0] =
      [(1, sampleRecord 1), (1, sampleRecord 0)] := by
    norm_num [VectorStore.search, collectResults, fallbackScores,
      fallbackTopIndices, simsOf, dot]
  have h2 := h [sampleRecord 0, sampleRecord 1] [[1], [1]] [1] 2 [1, 0]
    argsortExample
  rw [hres] at h2
  have h3 : ¬ TiesAscend [((1 : ℚ), sampleRecord 1),
      ((1 : ℚ), sampleRecord 0)] := by
    intro ht
    have h4 := (List.pairwise_cons.mp ht).1 ((1 : ℚ), sampleRecord 0)
      (by simp)
    simp [sampleRecord] at h4
  exact h3 h2.2.2

/-- C2 (amended): for every index state, query and valid argsort permutation,
`VectorStore.search` returns at most `topK` pairs ordered by non-increasing
similarity score; the order of equal-score results follows the backend's
(unstable) sort and is not otherwise constrained. -/
theorem search_topk_sorted (metadata : List VectorRecord)
    (embeddings : List (List ℚ)) (q : List ℚ) (k : Nat) (perm : List Nat)
    (h : IsArgsortDesc (simsOf embeddings q) perm) :
    (VectorStore.search metadata embeddings q k perm).length ≤ k ∧
      ((VectorStore.search metadata embeddings q k perm).map
          Prod.fst).Sorted (· ≥ ·) := by
  unfold VectorStore.search
  by_cases he : embeddings.length = 0
  · simp [he]
  · simp only [he, if_false]
    refine ⟨?_, ?_⟩
    · have h1 := collectResults_length_le metadata
        (fallbackScores (simsOf embeddings q) perm k)
        ((fallbackTopIndices perm k).map Int.ofNat)
      have h2 : (fallbackScores (simsOf embeddings q) perm k).length ≤ k := by
        simp [fallbackScores]
      exact le_trans h1 h2
    · have hsub := collectResults_fst_sublist metadata
        (fallbackScores (simsOf embeddings q) perm k)
        ((fallbackTopIndices perm k).map Int.ofNat)
      have hscores :
          (fallbackScores (simsOf embeddings q) perm k).Sublist
            (perm.map (fun i => (simsOf embeddings q).getD i 0)) := by
        simpa [fallbackScores] using
          (List.take_sublist k perm).map
            (fun i => (simsOf embeddings q).getD i 0)
      exact (h.2.sublist hscores).sublist hsub

/-- C2 (witness): the amended theorem applied to a concrete two-row index. -/
theorem search_topk_sorted_witness :
    (VectorStore.search [sampleRecord 0, sampleRecord 1] [[1], [1]] [1] 2
        [1, 0]).length ≤ 2 ∧
      ((VectorStore.search [sampleRecord 0, sampleRecord 1] [[1], [1]] [1] 2
          [1, 0]).map Prod.fst).Sorted (· ≥ ·) :=
  search_topk_sorted [sampleRecord 0, sampleRecord 1] [[1], [1]] [1] 2 [1, 0]
    argsortExample

/-- C10: `VectorStore.search` never returns a dangling record — every
returned pair holds the metadata record at some in-bounds index — and the
collection loop silently drops any backend hit whose index is negative or at
least the metadata count, so a backend vector count exceeding the metadata
count cannot make search fail. -/
theorem search_no_dangling (metadata : List VectorRecord)
    (embeddings : List (List ℚ)) (q : List ℚ) (k : Nat) (perm : List Nat) :
    (∀ r ∈ VectorStore.search metadata embeddings q k perm,
        ∃ j, ∃ hj : j < metadata.length, r.2 = metadata.get ⟨j, hj⟩) ∧
      (∀ (s : ℚ) (ss : List ℚ) (i : Int) (is : List Int),
        ¬ (0 ≤ i ∧ i.toNat < metadata.length) →
        collectResults metadata (s :: ss) (i :: is) =
          collectResults metadata ss is) := by
  refine ⟨?_, ?_⟩
  · intro r hr
    unfold VectorStore.search at hr
    by_cases he : embeddings.length = 0
    · simp [he] at hr
    · simp only [he, if_false] at hr
      exact collectResults_mem metadata _ _ r hr
  · intro s ss i is hi
    simp [collectResults, hi]

/-- C10 (witness): the theorem applied to a single-record index whose backend
reports two vectors; the out-of-range hit is dropped and the surviving pair
references the in-bounds record. -/
theorem search_no_dangling_witness :
    ∃ j, ∃ hj : j < ([sampleRecord 0] : List VectorRecord).length,
      (((1 : ℚ), sampleRecord 0) : ℚ × VectorRecord).2 =
        [sampleRecord 0].get ⟨j, hj⟩ :=
  (search_no_dangling [sampleRecord 0] [[1], [1]] [1] 2 [1, 0]).1
    ((1 : ℚ), sampleRecord 0)
    (by norm_num [VectorStore.search, collectResults, fallbackScores,
      fallbackTopIndices, simsOf, dot])

/-- Mirrors the chain-of-custody dictionary built by `build_audit_pack`
(`src/services/audit_pack.py` lines 355–369).  Environment-dependent fields
(timestamps, tool versions, hostname) are opaque strings for this model. -/
structure ChainRecord where
  pack_id : String
  created_by : String
  created_at : String
  query_or_car_id : String
  evidence_ids : List String
  redaction_mode : String
  sha256_of_zip : Option String
deriving DecidableEq, Repr

/-- The two files the finalization phase of `build_audit_pack` persists:
`chain_of_custody.json` and the archive `packs/<pack_id>.zip`; each is `none`
until written.  Archive contents are modelled as a byte list. -/
structure PackFiles where
  chainFile : Option ChainRecord
  zipFile : Option (List Nat)
deriving DecidableEq, Repr

/-- The drafted chain-of-custody record of `build_audit_pack`
(`src/services/audit_pack.py` lines 355–369): `sha256_of_zip` is `None`. -/
def draftChain (pack_id created_by created_at qc : String)
    (evidence_ids : List String) (mode : String) : ChainRecord :=
  { pack_id := pack_id, created_by := created_by, created_at := created_at,
    query_or_car_id := qc, evidence_ids := evidence_ids,
    redaction_mode := mode, sha256_of_zip := none }

/-- The successive persisted file states of the finalization phase of
`build_audit_pack` (`src/services/audit_pack.py` lines 353–380), in program
order: before the chain write; after writing the draft chain (lines 370–371);
after `_zip_pack` produces the archive (line 374) whose bytes are `zipBytes`;
and after rewriting the chain with `sha256_of_zip` set to the SHA-256 of the
archive bytes just read back (lines 376–380).  `shaB` is an abstract SHA-256
digest function on byte strings. -/
def buildFinalize (shaB : List Nat → String)
    (pack_id created_by created_at qc : String) (evidence_ids : List String)
    (mode : String) (zipBytes : List Nat) : List PackFiles :=
  [ { chainFile := none, zipFile := none },
    { chainFile := some (draftChain pack_id created_by created_at qc
        evidence_ids mode), zipFile := none },
    { chainFile := some (draftChain pack_id created_by created_at qc
        evidence_ids mode), zipFile := some zipBytes },
    { chainFile := some { draftChain pack_id created_by created_at qc
          evidence_ids mode with sha256_of_zip := some (shaB zipBytes) },
      zipFile := some zipBytes } ]

/-- C1: along the finalization sequence of a pack build, (i) whenever the
persisted chain-of-custody record has its archive-hash field populated, the
archive file exists and the hash equals the SHA-256 of the archive's bytes;
(ii) while the archive has not been produced, any persisted record has the
hash field unset; and (iii) the build ends in the finalized state whose hash
is the archive's SHA-256. -/
theorem chain_custody_hash (shaB : List Nat → String)
    (pid cb cat qc : String) (eids : List String) (mode : String)
    (zipBytes : List Nat) :
    (∀ st ∈ buildFinalize shaB pid cb cat qc eids mode zipBytes,
        ∀ c h, st.chainFile = some c → c.sha256_of_zip = some h →
          st.zipFile = some zipBytes ∧ h = shaB zipBytes) ∧
      (∀ st ∈ buildFinalize shaB pid cb cat qc eids mode zipBytes,
        st.zipFile = none → ∀ c, st.chainFile = some c →
          c.sha256_of_zip = none) ∧
      (buildFinalize shaB pid cb cat qc eids mode zipBytes).getLast? =
        some { chainFile := some { draftChain pid cb cat qc eids mode with
                 sha256_of_zip := some (shaB zipBytes) },
               zipFile := some zipBytes } := by
  refine ⟨?_, ?_, ?_⟩
  · intro st hst c h hc hsha
    simp only [buildFinalize, List.mem_cons, List.not_mem_nil, or_false]
      at hst
    rcases hst with rfl | rfl | rfl | rfl
    · simp at hc
    · simp only [Option.some.injEq] at hc
      rw [← hc] at hsha
      simp [draftChain] at hsha
    · simp only [Option.some.injEq] at hc
      rw [← hc] at hsha
      simp [draftChain] at hsha
    · simp only [Option.some.injEq] at hc
      rw [← hc] at hsha
      simp only [draftChain, Option.some.injEq] at hsha
      exact ⟨rfl, hsha.symm⟩
  · intro st hst hz c hc
    simp only [buildFinalize, List.mem_cons, List.not_mem_nil, or_false]
      at hst
    rcases hst with rfl | rfl | rfl | rfl
    · simp at hc
    · simp only [Option.some.injEq] at hc
      rw [← hc]
      simp [draftChain]
    · simp at hz
    · simp at hz
  · simp [buildFinalize]

/-- A concrete finalized chain-of-custody record, used to instantiate the
C1 theorem. -/
def sampleFinalChain : ChainRecord :=
  { pack_id := "p", created_by := "u", created_at := "t",
    query_or_car_id := "q", evidence_ids := [], redaction_mode := "overlay",
    sha256_of_zip := some "H" }

/-- The concrete finalized persisted state matching `sampleFinalChain`. -/
def sampleFinalFiles : PackFiles :=
  { chainFile := some sampleFinalChain, zipFile := some [0] }

/-- C1 (witness): the theorem applied to a concrete build whose digest
function returns "H": the finalized persisted state indeed pairs the archive
with the hash "H" of its bytes. -/
theorem chain_custody_hash_witness :
    sampleFinalFiles.zipFile = some [0] ∧
      "H" = (fun _ : List Nat => "H") [0] := by
  have h := (chain_custody_hash (fun _ => "H") "p" "u" "t" "q" [] "overlay"
      [0]).1
    sampleFinalFiles
    (by simp [buildFinalize, draftChain, sampleFinalFiles, sampleFinalChain])
    sampleFinalChain
    "H" rfl rfl
  exact h

/-- Mirrors the dataclass `EvidenceItem` of `src/services/audit_pack.py`
(lines 30–42). -/
structure EvidenceItem where
  evidence_id : String
  doc_id : String
  filename : String
  page : Nat
  start_line : Nat
  end_line : Nat
  excerpt : String
  citation : String
  source_hash : String
  collected_at : String
  redaction_applied : Bool := false
deriving DecidableEq, Repr

/-- The deduplication key `(ev.filename, ev.page, ev.start_line)` used by
`build_audit_pack` (`src/services/audit_pack.py` line 307). -/
def dedupKey (ev : EvidenceItem) : String × Nat × Nat :=
  (ev.filename, ev.page, ev.start_line)

/-- One step `dedup[key] = ev` on an insertion-ordered dictionary, with
Python dict semantics: overwriting an existing key keeps the key's original
position; a new key is appended at the end. -/
def insertDict (acc : List ((String × Nat × Nat) × EvidenceItem))
    (k : String × Nat × Nat) (v : EvidenceItem) :
    List ((String × Nat × Nat) × EvidenceItem) :=
  if k ∈ acc.map Prod.fst then
    acc.map (fun p => if p.1 = k then (k, v) else p)
  else acc ++ [(k, v)]

/-- The dedup dictionary built by the loop of `build_audit_pack`
(`src/services/audit_pack.py` lines 305–308). -/
def dictOfList (evs : List EvidenceItem) :
    List ((String × Nat × Nat) × EvidenceItem) :=
  evs.foldl (fun acc ev => insertDict acc (dedupKey ev) ev) []

/-- `evidence = list(dedup.values())[:max_items]`
(`src/services/audit_pack.py` line 309). -/
def dedupEvidence (evs : List EvidenceItem) (max_items : Nat) :
    List EvidenceItem :=
  ((dictOfList evs).map Prod.snd).take max_items

/-- A concrete evidence item (only the dedup-relevant fields vary). -/
def mkEvidence (eid fn : String) (pg sl : Nat) : EvidenceItem :=
  { evidence_id := eid, doc_id := "", filename := fn, page := pg,
    start_line := sl, end_line := sl, excerpt := "", citation := "",
    source_hash := "", collected_at := "" }

/-- Invariants of the dedup dictionary: keys are unique, each entry's key is
its value's dedup key, and each entry's value is the last element of the
input carrying that key (later entries overwrite earlier ones, in place). -/
theorem dictOfList_invariant (evs : List EvidenceItem) :
    ((dictOfList evs).map Prod.fst).Nodup ∧
      ∀ p ∈ dictOfList evs, dedupKey p.2 = p.1 ∧
        (evs.filter (fun e => decide (dedupKey e = p.1))).getLast? =
          some p.2 := by
  induction evs using List.reverseRecOn with
  | nil => simp [dictOfList]
  | append_singleton l e ih =>
    have hstep : dictOfList (l ++ [e]) =
        insertDict (dictOfList l) (dedupKey e) e := by
      simp [dictOfList, List.foldl_append]
    rw [hstep]
    unfold insertDict
    by_cases hmem : dedupKey e ∈ (dictOfList l).map Prod.fst
    · rw [if_pos hmem]
      have hkeys : ((dictOfList l).map
          (fun p => if p.1 = dedupKey e then (dedupKey e, e) else p)).map
            Prod.fst = (dictOfList l).map Prod.fst := by
        rw [List.map_map]
        apply List.map_congr_left
        intro p _
        by_cases hk : p.1 = dedupKey e <;> simp [hk]
      refine ⟨by rw [hkeys]; exact ih.1, ?_⟩
      intro p hp
      rw [List.mem_map] at hp
      obtain ⟨q, hq, hpq⟩ := hp
      by_cases hk : q.1 = dedupKey e
      · rw [if_pos hk] at hpq
        subst hpq
        refine ⟨rfl, ?_⟩
        rw [List.filter_append]
        have he : [e].filter (fun x => decide (dedupKey x = dedupKey e)) =
            [e] := by simp
        rw [he, List.getLast?_concat]
      · rw [if_neg hk] at hpq
        subst hpq
        obtain ⟨h1, h2⟩ := ih.2 q hq
        refine ⟨h1, ?_⟩
        rw [List.filter_append]
        have he : [e].filter (fun x => decide (dedupKey x = q.1)) = [] := by
          simp
          intro hc
          exact hk hc.symm
        rw [he, List.append_nil, h2]
    · rw [if_neg hmem]
      constructor
      · rw [List.map_append]
        simp only [List.map_cons, List.map_nil]
        rw [List.nodup_append]
        refine ⟨ih.1, List.nodup_singleton _, ?_⟩
        intro k hk
        simp only [List.mem_singleton]
        intro hke
        exact hmem (hke ▸ hk)
      · intro p hp
        rw [List.mem_append] at hp
        rcases hp with hp | hp
        · have hne : p.1 ≠ dedupKey e := by
            intro hke
            exact hmem (hke ▸ List.mem_map_of_mem Prod.fst hp)
          obtain ⟨h1, h2⟩ := ih.2 p hp
          refine ⟨h1, ?_⟩
          rw [List.filter_append]
          have he : [e].filter (fun x => decide (dedupKey x = p.1)) = [] := by
            simp
            intro hc
            exact hne hc.symm
          rw [he, List.append_nil, h2]
        · rw [List.mem_singleton] at hp
          subst hp
          refine ⟨rfl, ?_⟩
          rw [List.filter_append]
          have he : [e].filter (fun x => decide (dedupKey x = dedupKey e)) =
              [e] := by simp
          rw [he, List.getLast?_concat]

/-- A concrete evidence pool: `evB` and `evC` share the dedup key
`("f2", 1, 1)`; `evA` has a different key. -/
def evA : EvidenceItem := mkEvidence "A" "f1" 1 1

/-- Second concrete evidence item; shares its key with `evC`. -/
def evB : EvidenceItem := mkEvidence "B" "f2" 1 1

/-- Third concrete evidence item; shares its key with `evB`. -/
def evC : EvidenceItem := mkEvidence "C" "f2" 1 1

/-- C3 (counterexample): the claim as stated is false, because truncation to
`maxItems` happens after deduplication: with `maxItems = 1` and pool
`[evA, evB, evC]` where `evB` and `evC` share a key, the final set is `[evA]`
and contains zero items for that shared key, not exactly one. -/
theorem dedup_exactly_one_counterexample :
    ¬ (∀ (evs : List EvidenceItem) (max_items : Nat)
        (a b : EvidenceItem), a ∈ evs → b ∈ evs → a ≠ b →
        dedupKey a = dedupKey b →
        ((dedupEvidence evs max_items).filter
            (fun e => decide (dedupKey e = dedupKey a))).length = 1 ∧
          (dedupEvidence evs max_items).length ≤ max_items) := by
  intro h
  have h2 := h [evA, evB, evC] 1 evB evC (by decide) (by decide) (by decide)
    (by decide)
  exact absurd h2.1 (by decide)

/-- C3 (amended): the final evidence set of a pack contains at most one item
per `(filename, page, start_line)` key; any item present for a key is the
later-collected entry (the last of the merged pool with that key); and the
final set has at most `maxItems` elements.  A key can be dropped entirely
when the deduplicated pool is longer than `maxItems`. -/
theorem dedup_last_wins (evs : List EvidenceItem) (max_items : Nat) :
    (dedupEvidence evs max_items).length ≤ max_items ∧
      ((dedupEvidence evs max_items).map dedupKey).Nodup ∧
      ∀ e ∈ dedupEvidence evs max_items,
        (evs.filter (fun x => decide (dedupKey x = dedupKey e))).getLast? =
          some e := by
  obtain ⟨hnd, hmem⟩ := dictOfList_invariant evs
  refine ⟨List.length_take_le _ _, ?_, ?_⟩
  · have hmaps : (((dictOfList evs).map Prod.snd).map dedupKey) =
        (dictOfList evs).map Prod.fst := by
      rw [List.map_map]
      apply List.map_congr_left
      intro p hp
      exact (hmem p hp).1
    have hsub : ((dedupEvidence evs max_items).map dedupKey).Sublist
        (((dictOfList evs).map Prod.snd).map dedupKey) := by
      unfold dedupEvidence
      exact (List.take_sublist _ _).map _
    rw [hmaps] at hsub
    exact hnd.sublist hsub
  · intro e he
    unfold dedupEvidence at he
    have he2 : e ∈ (dictOfList evs).map Prod.snd := List.mem_of_mem_take he
    rw [List.mem_map] at he2
    obtain ⟨p, hp, rfl⟩ := he2
    have h1 := (hmem p hp).1
    have h2 := (hmem p hp).2
    rw [h1]
    exact h2

/-- C3 (witness): the amended theorem applied to the concrete pool
`[evA, evB, evC]` with `maxItems = 3`: the surviving entry for `evA`'s key is
the last pool element carrying it. -/
theorem dedup_last_wins_witness :
    (([evA, evB, evC] : List EvidenceItem).filter
        (fun x => decide (dedupKey x = dedupKey evA))).getLast? = some evA :=
  (dedup_last_wins [evA, evB, evC] 3).2.2 evA (by decide)

/-- The durable storage of `VectorStore`: the fallback NumPy matrix file
`index.npy` and the record listing `meta.json`; `none` models an absent file
(`src/storage/vector_store.py` lines 34–48). -/
structure StorageState where
  indexFile : Option (List (List ℚ))
  metaFile : Option (List VectorRecord)
deriving Repr

/-- In-memory state of a loaded `VectorStore` (NumPy fallback backend). -/
structure StoreState where
  dim : Nat
  embeddings : List (List ℚ)
  metadata : List VectorRecord
deriving Repr

/-- `VectorStore._init_index`, NumPy fallback branch
(`src/storage/vector_store.py` lines 61–68): load the matrix if its file
exists, else start empty.  No reconciliation against the metadata count. -/
def initIndex (s : StorageState) : List (List ℚ) :=
  match s.indexFile with
  | some e => e
  | none => []

/-- `VectorStore._load_metadata` (`src/storage/vector_store.py` lines 70–80):
load the record list if its file exists (a parse failure also yields `[]`),
else `[]`.  No reconciliation against the vector count. -/
def loadMetadata (s : StorageState) : List VectorRecord :=
  match s.metaFile with
  | some m => m
  | none => []

/-- `VectorStore.__init__` (`src/storage/vector_store.py` lines 34–48):
`_init_index` followed by `_load_metadata`. -/
def loadStore (dim : Nat) (s : StorageState) : StoreState :=
  { dim := dim, embeddings := initIndex s, metadata := loadMetadata s }

/-- The metadata dict handed to `VectorStore.add`
(`src/storage/vector_store.py` lines 110–120): every record field except the
id, which `add` assigns sequentially. -/
structure MetaInput where
  doc_id : String
  filename : String
  page_number : Nat
  line_start : Nat
  line_end : Nat
  text_hash : String
  text : String
deriving DecidableEq, Repr

/-- Record construction inside `VectorStore.add`
(`src/storage/vector_store.py` lines 110–121): `id = start_id + i`. -/
def mkRecord (start_id i : Nat) (m : MetaInput) : VectorRecord :=
  { id := start_id + i, doc_id := m.doc_id, filename := m.filename,
    page_number := m.page_number, line_start := m.line_start,
    line_end := m.line_end, text_hash := m.text_hash, text := m.text }

/-- `VectorStore.add` on the fallback backend
(`src/storage/vector_store.py` lines 98–124): assert every vector has the
configured dimension, append the vectors and the freshly numbered records,
then persist the index (`np.save`) and the metadata (`_save_metadata`) before
returning.  Yields the new in-memory state and the storage contents it wrote,
or `none` when the dimension assert fires. -/
def addStore (st : StoreState) (embs : List (List ℚ))
    (metas : List MetaInput) : Option (StoreState × StorageState) :=
  if embs.all (fun v => v.length = st.dim) then
    let newEmb := st.embeddings ++ embs
    let start_id := st.metadata.length
    let newMeta := st.metadata ++
      (metas.enum.map (fun p => mkRecord start_id p.1 p.2))
    some ({ st with embeddings := newEmb, metadata := newMeta },
      { indexFile := some newEmb, metaFile := some newMeta })
  else none

/-- C5 (counterexample): the claim that a freshly loaded index never serves
mismatched vector/metadata state is false: loading a storage whose matrix
holds two vectors but whose metadata lists one record yields an in-memory
state with two embeddings and one record — nothing is truncated. -/
theorem load_truncation_counterexample :
    ¬ (∀ (dim : Nat) (s : StorageState),
        (loadStore dim s).embeddings.length =
          (loadStore dim s).metadata.length) := by
  intro h
  have h2 := h 1
    { indexFile := some [[1], [2]], metaFile := some [sampleRecord 0] }
  norm_num [loadStore, initIndex, loadMetadata] at h2

/-- C5 (amended): after `add` returns, both the vector store and the metadata
store are persisted, and a subsequent load returns exactly the persisted
contents.  No record-count reconciliation happens at load time: a mismatched
storage is loaded as-is, not truncated (out-of-range hits are only dropped
later, at search time). -/
theorem add_persists_load_exact (st : StoreState) (embs : List (List ℚ))
    (metas : List MetaInput)
    (hdim : embs.all (fun v => v.length = st.dim) = true) :
    ∃ st2 storage, addStore st embs metas = some (st2, storage) ∧
      storage.indexFile = some st2.embeddings ∧
      storage.metaFile = some st2.metadata ∧
      loadStore st.dim storage = st2 ∧
      ∀ s : StorageState,
        (loadStore st.dim s).embeddings = s.indexFile.getD [] ∧
        (loadStore st.dim s).metadata = s.metaFile.getD [] := by
  have hadd : addStore st embs metas = some
      ({ st with embeddings := st.embeddings ++ embs,
                 metadata := st.metadata ++ (metas.enum.map
                   (fun p => mkRecord st.metadata.length p.1 p.2)) },
       { indexFile := some (st.embeddings ++ embs),
         metaFile := some (st.metadata ++ (metas.enum.map
           (fun p => mkRecord st.metadata.length p.1 p.2))) }) := by
    unfold addStore
    rw [if_pos hdim]
  refine ⟨_, _, hadd, rfl, rfl, rfl, ?_⟩
  intro s
  cases hidx : s.indexFile <;> cases hmeta : s.metaFile <;>
    simp [loadStore, initIndex, loadMetadata, hidx, hmeta]

/-- A concrete metadata input for instantiating the C5 theorem. -/
def sampleMeta : MetaInput :=
  { doc_id := "d", filename := "f", page_number := 1, line_start := 1,
    line_end := 1, text_hash := "h", text := "t" }

/-- An empty one-dimensional store for instantiating the C5 theorem. -/
def emptyStore : StoreState :=
  { dim := 1, embeddings := [], metadata := [] }

/-- C5 (witness): the amended theorem applied to one add on an empty
one-dimensional store. -/
theorem add_persists_load_exact_witness :
    ∃ st2 storage, addStore emptyStore [[1]] [sampleMeta] =
        some (st2, storage) ∧
      storage.indexFile = some st2.embeddings ∧
      storage.metaFile = some st2.metadata ∧
      loadStore emptyStore.dim storage = st2 ∧
      ∀ s : StorageState,
        (loadStore emptyStore.dim s).embeddings = s.indexFile.getD [] ∧
        (loadStore emptyStore.dim s).metadata = s.metaFile.getD [] :=
  add_persists_load_exact emptyStore [[1]] [sampleMeta] (by decide)

/-- Mirrors one row of the manifest built by `_write_manifest`
(`src/services/audit_pack.py` lines 229–244). -/
structure ManifestRow where
  evidence_id : String
  filename : String
  page : Nat
  start_line : Nat
  end_line : Nat
  sha256 : String
  bytes : Nat
  citation : String
  source_path : String
deriving DecidableEq, Repr

/-- The row `_write_manifest` records for one written excerpt file
(`src/services/audit_pack.py` lines 230–244): the SHA-256 and byte count are
computed from the bytes read back from disk (`fs pe.1`), not from the
in-memory string. -/
def manifestRowOf (shaB : List Nat → String) (fs : String → List Nat)
    (pe : String × EvidenceItem) : ManifestRow :=
  { evidence_id := pe.2.evidence_id, filename := pe.2.filename,
    page := pe.2.page, start_line := pe.2.start_line,
    end_line := pe.2.end_line, sha256 := shaB (fs pe.1),
    bytes := (fs pe.1).length, citation := pe.2.citation,
    source_path := pe.1 }

/-- `_write_manifest` (`src/services/audit_pack.py` lines 227–256): one row
per entry of `evidence_files`, in order. -/
def writeManifest (shaB : List Nat → String) (fs : String → List Nat)
    (evidence_files : List (String × EvidenceItem)) : List ManifestRow :=
  evidence_files.map (manifestRowOf shaB fs)

/-- In a pair list with pairwise-distinct first components, exactly one entry
carries any first component that occurs. -/
theorem filter_fst_length_one {α β : Type} [DecidableEq β]
    (l : List (β × α)) (hnd : (l.map Prod.fst).Nodup) (p : β × α)
    (hp : p ∈ l) :
    (l.filter (fun q => decide (q.1 = p.1))).length = 1 := by
  induction l with
  | nil => cases hp
  | cons q l ih =>
    rw [List.map_cons, List.nodup_cons] at hnd
    rcases List.mem_cons.mp hp with rfl | hpl
    · have htail : l.filter (fun r => decide (r.1 = p.1)) = [] := by
        rw [List.filter_eq_nil_iff]
        intro x hx
        simp only [decide_eq_true_eq]
        intro hxp
        exact hnd.1 (hxp ▸ List.mem_map_of_mem Prod.fst hx)
      simp [List.filter_cons, htail]
    · have hqp : ¬ (q.1 = p.1) := by
        intro hq
        exact hnd.1 (hq ▸ List.mem_map_of_mem Prod.fst hpl)
      simp only [List.filter_cons, decide_eq_true_eq, if_neg hqp]
      exact ih hnd.2 hpl

/-- C6: the manifest has one row per written excerpt file; every row's
SHA-256 and byte length are computed from the bytes actually on disk at the
row's source path; and for each written file (paths are pairwise distinct)
the manifest contains exactly one row for that file. -/
theorem manifest_rows_match_disk (shaB : List Nat → String)
    (fs : String → List Nat) (files : List (String × EvidenceItem))
    (hnd : (files.map Prod.fst).Nodup) :
    (writeManifest shaB fs files).length = files.length ∧
      (∀ r ∈ writeManifest shaB fs files,
        r.sha256 = shaB (fs r.source_path) ∧
        r.bytes = (fs r.source_path).length) ∧
      ∀ pe ∈ files,
        ((writeManifest shaB fs files).filter
            (fun r => decide (r.source_path = pe.1))).length = 1 := by
  refine ⟨by simp [writeManifest], ?_, ?_⟩
  · intro r hr
    rw [writeManifest, List.mem_map] at hr
    obtain ⟨pe, _, rfl⟩ := hr
    exact ⟨rfl, rfl⟩
  · intro pe hpe
    have hfm : (writeManifest shaB fs files).filter
        (fun r => decide (r.source_path = pe.1)) =
        (files.filter (fun q => decide (q.1 = pe.1))).map
          (manifestRowOf shaB fs) := by
      rw [writeManifest, List.filter_map]
      rfl
    rw [hfm, List.length_map]
    exact filter_fst_length_one files hnd pe hpe

/-- C6 (witness): the theorem applied to two concrete files on a disk where
every file holds the byte string `[7]` and the digest function returns "H". -/
theorem manifest_rows_match_disk_witness :
    ((writeManifest (fun _ => "H") (fun _ => [7]) [("a", evA), ("b", evB)]).filter
        (fun r => decide (r.source_path = "a"))).length = 1 :=
  (manifest_rows_match_disk (fun _ => "H") (fun _ => [7])
      [("a", evA), ("b", evB)] (by decide)).2.2 ("a", evA) (by decide)

/-- The archive member list produced by `_zip_pack`
(`src/services/audit_pack.py` lines 259–269).  A walk is the sequence of
`(directory, files-in-that-directory)` steps `os.walk` yields — the order of
the directory steps is whatever the filesystem iteration gives, while within
one step `_zip_pack` writes `sorted(files)`.  Filenames are modelled by
naturals whose linear order stands for the lexicographic string order used by
`sorted`; a member is the pair (directory, filename). -/
def zipMembers (walkSeq : List (String × List Nat)) : List (String × Nat) :=
  walkSeq.flatMap (fun p =>
    ((p.2).insertionSort (· ≤ ·)).map (fun fn => (p.1, fn)))

/-- Two walks report the same directory contents: the same multiset of
directories, each with the same multiset of files. -/
def SameTree (s1 s2 : List (String × List Nat)) : Prop :=
  (s1.map (fun p => (p.1, (p.2 : Multiset Nat)))).Perm
    (s2.map (fun p => (p.1, (p.2 : Multiset Nat))))

instance (s1 s2 : List (String × List Nat)) : Decidable (SameTree s1 s2) := by
  unfold SameTree
  infer_instance

/-- C7 (counterexample): the claim that the archive member order is
independent of the filesystem's directory iteration order is false —
`_zip_pack` sorts the files within each directory but walks the
subdirectories (`evidence/`, `redactions/`) in the order `os.walk` reports
them, so two walks over identical contents can produce differently ordered
archives. -/
theorem zip_order_counterexample :
    ¬ (∀ s1 s2, SameTree s1 s2 → zipMembers s1 = zipMembers s2) := by
  intro h
  have h2 := h [("evidence/", [1]), ("redactions/", [2])]
    [("redactions/", [2]), ("evidence/", [1])] (by decide)
  exact absurd h2 (by decide)

/-- C7 (amended): archiving is deterministic only up to the walk's directory
order: two walks that enumerate the directories in the same order produce
identical member lists however each directory's files were ordered, because
`_zip_pack` sorts the files of each directory; the relative order of
directories follows `os.walk`'s filesystem-dependent iteration order. -/
theorem zip_members_stable (s1 s2 : List (String × List Nat))
    (h : List.Forall₂ (fun p q => p.1 = q.1 ∧ p.2.Perm q.2) s1 s2) :
    zipMembers s1 = zipMembers s2 := by
  induction h with
  | nil => rfl
  | cons hpq _ ih =>
    rename_i p q t1 t2 _
    have hsort : p.2.insertionSort (· ≤ ·) = q.2.insertionSort (· ≤ ·) :=
      List.eq_of_perm_of_sorted
        ((List.perm_insertionSort _ _).trans
          (hpq.2.trans (List.perm_insertionSort _ _).symm))
        (List.sorted_insertionSort _ _) (List.sorted_insertionSort _ _)
    simp only [zipMembers, List.flatMap_cons]
    simp only [zipMembers] at ih
    rw [hsort, hpq.1, ih]

/-- C7 (witness): the amended theorem on a directory whose files are reported
in two different orders: the resulting member lists coincide. -/
theorem zip_members_stable_witness :
    zipMembers [("e/", [2, 1])] = zipMembers [("e/", [1, 2])] :=
  zip_members_stable [("e/", [2, 1])] [("e/", [1, 2])]
    (List.Forall₂.cons ⟨rfl, by decide⟩ List.Forall₂.nil)

/-- A compiled text pattern: its source text (as the redaction log key) and a
matcher giving the length of the leftmost greedy match starting at the head
of a character list, or `none`. -/
structure TextPattern where
  name : String
  matchAt : List Char → Option Nat

/-- Matcher of the regex `P-\d+`: the literals `P`, `-`, then one or more
digits, greedily (maximal digit run), as `re` matches this pattern. -/
def matchPD : List Char → Option Nat
  | 'P' :: '-' :: rest =>
    let ds := rest.takeWhile Char.isDigit
    if ds.length = 0 then none else some (2 + ds.length)
  | _ => none

/-- The pattern `P-\d+` as passed to `_apply_redactions_text`. -/
def patternPD : TextPattern :=
  { name := "P-\\d+", matchAt := matchPD }

/-- The block-glyph replacement `"████"` substituted for each match by
`_apply_redactions_text` (`src/services/audit_pack.py` line 178). -/
def blockGlyphs : List Char := ['█', '█', '█', '█']

/-- One left-to-right pass of `re.findall` + `re.sub` for a single pattern:
at each position try the pattern; on a match, count it, emit the block
glyphs, and resume after the matched span (matches are non-overlapping);
otherwise keep the character and move on by one.  `fuel` bounds the
recursion; called with the text length it is never exhausted, since every
step consumes at least one character. -/
def scanPattern (m : List Char → Option Nat) (glyphs : List Char) :
    Nat → List Char → Nat × List Char
  | 0, cs => (0, cs)
  | _ + 1, [] => (0, [])
  | fuel + 1, c :: rest =>
    match m (c :: rest) with
    | some n =>
      let r := scanPattern m glyphs fuel ((c :: rest).drop n)
      (r.1 + 1, glyphs ++ r.2)
    | none =>
      let r := scanPattern m glyphs fuel rest
      (r.1, c :: r.2)

/-- `_apply_redactions_text` (`src/services/audit_pack.py` lines 171–182):
fold over the pattern list; for each pattern count its matches in the
*current*, already partially redacted text; when the count is nonzero,
substitute the block glyphs and record the count under the pattern's text.
(The `re.error` branch cannot arise here: patterns arrive as compiled
matchers.) -/
def applyRedactionsText (content : List Char)
    (patterns : List TextPattern) : List Char × List (String × Nat) :=
  patterns.foldl
    (fun acc pat =>
      let cnt := (scanPattern pat.matchAt blockGlyphs acc.1.length acc.1).1
      if cnt ≠ 0 then
        ((scanPattern pat.matchAt blockGlyphs acc.1.length acc.1).2,
         acc.2 ++ [(pat.name, cnt)])
      else acc)
    (content, [])

/-- `True` when no suffix of `cs` starts with a match of `m`, i.e. no
substring of `cs` matches the pattern at all. -/
def hasNoMatch (m : List Char → Option Nat) (cs : List Char) : Bool :=
  (List.range (cs.length + 1)).all (fun i => (m (cs.drop i)).isNone)

/-- C8: redacting the excerpt "Part P-12345 revised" with the single pattern
`P-\d+` yields "Part ████ revised", which contains no substring matching
`P-\d+`, and the match-count map reports count 1 for that pattern. -/
theorem redaction_example :
    hasNoMatch matchPD
        (applyRedactionsText "Part P-12345 revised".toList [patternPD]).1 =
      true ∧
      (applyRedactionsText "Part P-12345 revised".toList [patternPD]).2 =
        [("P-\\d+", 1)] ∧
      (applyRedactionsText "Part P-12345 revised".toList [patternPD]).1 =
        "Part ████ revised".toList := by
  decide

/-- Python truthiness of an optional string argument: `not x` holds exactly
for `None` and the empty string, so an argument counts as supplied when it is
present and non-empty. -/
def truthy : Option String → Bool
  | none => false
  | some s => !(s == "")

/-- Side effects of the opening of `build_audit_pack`: allocating the pack id
(`uuid.uuid4()`) and creating build directories (`os.makedirs`). -/
inductive BuildEffect where
  | allocPackId (pid : String)
  | makeDir (path : String)
deriving DecidableEq, Repr

/-- The opening of `build_audit_pack` (`src/services/audit_pack.py` lines
287–296): when both `car_id` and `query` are falsy, raise
`ValueError("Provide either car_id or query")` before any pack id is
allocated or any directory created; otherwise allocate the pack id and
create the `evidence` and `redactions` build directories.  Returns the
effects performed and the error, if raised. -/
def buildAuditPackStart (car_id query : Option String) (pack_id : String) :
    List BuildEffect × Option String :=
  if !(truthy car_id) && !(truthy query) then
    ([], some "Provide either car_id or query")
  else
    ([BuildEffect.allocPackId pack_id,
      BuildEffect.makeDir ("packs/" ++ pack_id ++ "/evidence"),
      BuildEffect.makeDir ("packs/" ++ pack_id ++ "/redactions")], none)

/-- C9: `build_audit_pack` fails with the validation error exactly when
neither a query nor a case id is supplied (absent or empty in the Python
truthiness sense), and in that case it fails before any pack state exists:
no pack id is allocated and no directory is created. -/
theorem build_validation_iff (car_id query : Option String) (pid : String) :
    ((buildAuditPackStart car_id query pid).2.isSome ↔
        (truthy car_id = false ∧ truthy query = false)) ∧
      ((buildAuditPackStart car_id query pid).2.isSome →
        (buildAuditPackStart car_id query pid).1 = []) := by
  unfold buildAuditPackStart
  by_cases hc : truthy car_id <;> by_cases hq : truthy query <;>
    simp [hc, hq]

/-- C9 (witness): the theorem applied to a call with no query and no case id:
the validation error fires and the effect list is empty. -/
theorem build_validation_iff_witness :
    (buildAuditPackStart none none "p").1 = [] :=
  (build_validation_iff none none "p").2 (by decide)

/-- The RNG seed of `deterministic_embedding` (`src/utils/embeddings.py`
lines 17–18): `int(sha256_hex(text)[:16], 16) % (2**32)` — the first 16 hex
digits of the 256-bit digest are its top 64 bits. -/
def seedOf (digest : Nat) : Nat :=
  (digest / 2 ^ 192) % 2 ^ 32

/-- The raw vector of `deterministic_embedding`
(`src/utils/embeddings.py` lines 19–20): `dim` successive draws from an RNG
seeded only by the text's digest.  `gen seed i` abstracts the i-th
`rng.uniform(-1.0, 1.0)` draw of Python's Mersenne Twister under `seed`;
float values are modelled as exact rationals. -/
def rawVec (gen : Nat → Nat → ℚ) (sha : String → Nat) (t : String)
    (dim : Nat) : List ℚ :=
  (List.range dim).map (gen (seedOf (sha t)))

/-- Sum of squares of a vector — the square of the Euclidean norm computed
by `np.linalg.norm`. -/
def sumSq (v : List ℚ) : ℚ :=
  (v.map (fun x => x * x)).sum

/-- The normalization step of `deterministic_embedding`
(`src/utils/embeddings.py` lines 21–24): `vec / norm` when `norm > 0`, else
`vec` unchanged.  The float `np.linalg.norm(vec)` is modelled by an exact
value `n` with `0 ≤ n` and `n * n = sumSq vec` (an exact square root of the
sum of squares), passed as a parameter since square roots leave ℚ. -/
def normalizeWith (n : ℚ) (v : List ℚ) : List ℚ :=
  if 0 < n then v.map (fun x => x / n) else v

/-- `deterministic_embedding` (`src/utils/embeddings.py` lines 12–25): the
hash-seeded raw vector, normalized to unit length unless its norm is zero. -/
def deterministic_embedding (gen : Nat → Nat → ℚ) (sha : String → Nat)
    (t : String) (dim : Nat) (n : ℚ) : List ℚ :=
  normalizeWith n (rawVec gen sha t dim)

/-- A sum of squares is nonnegative. -/
theorem sumSq_nonneg (v : List ℚ) : 0 ≤ sumSq v := by
  induction v with
  | nil => simp [sumSq]
  | cons x v ih =>
    simp only [sumSq, List.map_cons, List.sum_cons]
    have hx : 0 ≤ x * x := mul_self_nonneg x
    have hv : 0 ≤ (v.map (fun y => y * y)).sum := ih
    exact add_nonneg hx hv

/-- A sum of squares vanishes exactly on the all-zero vector. -/
theorem sumSq_eq_zero_iff (v : List ℚ) :
    sumSq v = 0 ↔ v = List.replicate v.length 0 := by
  induction v with
  | nil => simp [sumSq]
  | cons x v ih =>
    simp only [sumSq, List.map_cons, List.sum_cons, List.length_cons,
      List.replicate_succ, List.cons.injEq]
    constructor
    · intro h
      have hx : 0 ≤ x * x := mul_self_nonneg x
      have hv : 0 ≤ sumSq v := sumSq_nonneg v
      have hx0 : x * x = 0 := by
        have := sumSq_nonneg v
        simp only [sumSq] at this
        nlinarith [this]
      have hv0 : sumSq v = 0 := by
        simp only [sumSq]
        nlinarith [mul_self_nonneg x]
      exact ⟨mul_self_eq_zero.mp hx0, ih.mp hv0⟩
    · rintro ⟨rfl, hv⟩
      have hv0 : sumSq v = 0 := by
        rw [ih]
        exact hv
      simp only [sumSq] at hv0
      simp [hv0]

/-- Dividing every component by `n` divides the sum of squares by `n * n`. -/
theorem sumSq_div (v : List ℚ) (n : ℚ) :
    sumSq (v.map (fun x => x / n)) = sumSq v / (n * n) := by
  induction v with
  | nil => simp [sumSq]
  | cons x v ih =>
    simp only [sumSq, List.map_cons, List.map_map, List.sum_cons] at ih ⊢
    rw [add_div, ← ih, div_mul_div_comm]

/-- C4: the embedding is a pure function of the text's digest and the
dimension — any text with the same digest produces the identical vector, and
nothing else (no process-local state) enters the computation — and the output
has unit length (sum of squares 1) except for the all-zero raw vector, which
is returned unchanged as the zero vector. -/
theorem embedding_pure_unit_norm (gen : Nat → Nat → ℚ) (sha : String → Nat)
    (t : String) (dim : Nat) (n : ℚ) (hn0 : 0 ≤ n)
    (hnn : n * n = sumSq (rawVec gen sha t dim)) :
    (∀ t2 : String, sha t2 = sha t →
        deterministic_embedding gen sha t2 dim n =
          deterministic_embedding gen sha t dim n) ∧
      (rawVec gen sha t dim = List.replicate dim 0 →
        deterministic_embedding gen sha t dim n = List.replicate dim 0) ∧
      (rawVec gen sha t dim ≠ List.replicate dim 0 →
        sumSq (deterministic_embedding gen sha t dim n) = 1) := by
  have hlen : (rawVec gen sha t dim).length = dim := by
    simp [rawVec]
  refine ⟨?_, ?_, ?_⟩
  · intro t2 h2
    simp [deterministic_embedding, rawVec, h2]
  · intro hz
    have hs0 : sumSq (rawVec gen sha t dim) = 0 := by
      rw [sumSq_eq_zero_iff, hlen]
      exact hz
    have hn : n = 0 := by
      have : n * n = 0 := by rw [hnn, hs0]
      exact mul_self_eq_zero.mp this
    rw [deterministic_embedding, normalizeWith, hn]
    simp [hz]
  · intro hz
    have hs0 : sumSq (rawVec gen sha t dim) ≠ 0 := by
      intro hc
      rw [sumSq_eq_zero_iff, hlen] at hc
      exact hz hc
    have hspos : 0 < sumSq (rawVec gen sha t dim) :=
      lt_of_le_of_ne (sumSq_nonneg _) (Ne.symm hs0)
    have hnpos : 0 < n := by
      rcases lt_or_eq_of_le hn0 with h | h
      · exact h
      · exfalso
        apply hs0
        rw [← hnn, ← h, mul_zero]
    rw [deterministic_embedding, normalizeWith, if_pos hnpos, sumSq_div,
      ← hnn]
    exact div_self (by positivity)

/-- C4 (witness): the theorem applied to the constant generator 1 on a
one-dimensional embedding: the raw vector is `[1]`, its exact norm is 1, and
the normalized output has unit sum of squares. -/
theorem embedding_pure_unit_norm_witness :
    sumSq (deterministic_embedding (fun _ _ => 1) (fun _ => 0) "x" 1 1) = 1 := by
  have h := (embedding_pure_unit_norm (fun _ _ => 1) (fun _ => 0) "x" 1 1
    (by norm_num) (by norm_num [rawVec, sumSq, seedOf])).2.2
  apply h
  norm_num [rawVec, seedOf]

end ComplianceTool
